import Mathlib

/-
Verification of the value model, comparison and arithmetic coercion rules,
aggregate context, and record encoding of src/core/types.rs.

Modelling conventions:
- Machine integers (i64) are Lean Int values; where two complement overflow
  matters the wrapping is explicit (wrap64).  Rust `+` on i64 wraps in a
  release build (a debug build aborts); the model uses the wrapping result.
  Rust `/` on i64 aborts on division by zero and on i64::MIN / -1 in every
  build; the model returns none for those inputs.
- f64 values are modelled by their 64-bit IEEE 754 pattern (a Nat).  f64Decode
  maps a pattern to its class (nan, signed infinity, or an exact finite value
  given as an integer fraction); encodeFrac maps an exact fraction back to the
  nearest pattern with round-to-nearest-even, following IEEE 754 binary64.
- Rust functions that can abort return Option; none models the abort
  (todo, unreachable, assert failure, arithmetic abort).  A Rust function
  returning Option<T> that can also abort is modelled as Option (Option T):
  the outer none is the abort, some none is Rust None.
- Strings and byte buffers are lists of byte values (List Nat); Rust String
  comparison and concatenation are byte-wise, matching this representation.
- Shared ownership (Rc) is identity-irrelevant for every verified property and
  is dropped: an Rc<String> payload is just its byte list.
-/

/-- Total comparison of two integers, the model of i64 Ord/PartialOrd. -/
def ordOfInt (a b : Int) : Ordering :=
  if a < b then .lt else if b < a then .gt else .eq

/-- Byte-wise lexicographic comparison of two byte sequences, the model of
Ord on Rust String (over its UTF-8 bytes) and on Vec of u8. -/
def compareBytes : List Nat → List Nat → Ordering
  | [], [] => .eq
  | [], _ :: _ => .lt
  | _ :: _, [] => .gt
  | a :: as, b :: bs =>
    match ordOfInt a b with
    | .eq => compareBytes as bs
    | o => o

/-- Fuel-driven floor of log2; fuel at least n makes it exact for n > 0. -/
def natLog2Aux : Nat → Nat → Nat
  | 0, _ => 0
  | fuel + 1, n => if n ≤ 1 then 0 else natLog2Aux fuel (n / 2) + 1

/-- Floor of log2 of a natural number (0 for inputs 0 and 1). -/
def natLog2 (n : Nat) : Nat := natLog2Aux n n

/-- The 8 big-endian bytes of the low 64 bits of a natural number,
the model of to_be_bytes on u64 bit patterns. -/
def beBytes8 (u : Nat) : List Nat :=
  [u / 2 ^ 56 % 256, u / 2 ^ 48 % 256, u / 2 ^ 40 % 256, u / 2 ^ 32 % 256,
   u / 2 ^ 24 % 256, u / 2 ^ 16 % 256, u / 2 ^ 8 % 256, u % 256]

/-- An exact fraction num / den with den positive, the value semantics of a
finite double.  Equality of values is always tested through fracCmp, never
through structural equality, so no normal form is needed. -/
structure Frac where
  num : Int
  den : Nat
deriving Repr

/-- Compare two fractions with positive denominators by cross multiplication. -/
def fracCmp (a b : Frac) : Ordering := ordOfInt (a.num * b.den) (b.num * a.den)

/-- Exact quotient of two fractions, keeping the denominator positive;
the second argument must be nonzero. -/
def fracDiv (a b : Frac) : Frac :=
  if b.num < 0 then ⟨-(a.num * b.den), a.den * b.num.natAbs⟩
  else ⟨a.num * b.den, a.den * b.num.natAbs⟩

/-- Multiply a fraction by 2 to the power k (k may be negative). -/
def fracScale (x : Frac) (k : Int) : Frac :=
  if 0 ≤ k then ⟨x.num * 2 ^ k.toNat, x.den⟩ else ⟨x.num, x.den * 2 ^ (-k).toNat⟩

/-- Whether 2 to the power e is at most the positive fraction x. -/
def fracPow2Le (e : Int) (x : Frac) : Bool :=
  if 0 ≤ e then ((x.den : Int) * 2 ^ e.toNat ≤ x.num) else ((x.den : Int) ≤ x.num * 2 ^ (-e).toNat)

/-- Floor of log2 of a positive fraction. -/
def fracLog2 (x : Frac) : Int :=
  let e0 : Int := (natLog2 x.num.natAbs : Int) - (natLog2 x.den : Int)
  if fracPow2Le e0 x then e0 else e0 - 1

/-- Round a nonnegative fraction to the nearest integer, ties to even. -/
def fracRoundNE (x : Frac) : Nat :=
  let fl : Int := x.num.fdiv (x.den : Int)
  let r : Int := x.num - fl * (x.den : Int)
  (if (x.den : Int) < 2 * r then fl + 1
   else if 2 * r = (x.den : Int) ∧ fl.emod 2 = 1 then fl + 1
   else fl).toNat

/-- The class of a double: not-a-number, a signed infinity, or a finite value. -/
inductive F64Class where
  | nan : F64Class
  | inf : F64Class
  | negInf : F64Class
  | fin (v : Frac) : F64Class
deriving Repr

/-- Bit pattern of the canonical quiet NaN produced by Rust f64 arithmetic. -/
def nanBits : Nat := 0x7FF8000000000000

/-- Bit pattern of positive infinity. -/
def infBits : Nat := 0x7FF0000000000000

/-- Bit pattern of negative infinity. -/
def negInfBits : Nat := 0xFFF0000000000000

/-- Sign bit of a 64-bit pattern. -/
def signBit (bits : Nat) : Nat := bits / 2 ^ 63 % 2

/-- Decode a 64-bit IEEE 754 binary64 pattern into its class.  The exponent
field 2047 encodes infinities and NaNs; field 0 encodes subnormals scaled by
2 to the power -1074; otherwise the value is (2^52 + mantissa) scaled by
2 to the power (exponent - 1075), negated when the sign bit is set. -/
def f64Decode (bits : Nat) : F64Class :=
  let s : Nat := signBit bits
  let e : Nat := bits / 2 ^ 52 % 2 ^ 11
  let m : Nat := bits % 2 ^ 52
  if e = 2047 then
    if m = 0 then (if s = 1 then .negInf else .inf) else .nan
  else
    let mag : Frac :=
      if e = 0 then ⟨(m : Int), 2 ^ 1074⟩
      else if 1075 ≤ e then ⟨(((2 ^ 52 + m) * 2 ^ (e - 1075) : Nat) : Int), 1⟩
      else ⟨((2 ^ 52 + m : Nat) : Int), 2 ^ (1075 - e)⟩
    .fin (if s = 1 then ⟨-mag.num, mag.den⟩ else mag)

/-- Encode an exact fraction as the nearest binary64 pattern, rounding to
nearest with ties to even, overflowing to infinity, underflowing through the
subnormal range to a signed zero. -/
def encodeFrac (x : Frac) : Nat :=
  if x.num = 0 then 0
  else
    let s := if x.num < 0 then 2 ^ 63 else 0
    let n : Frac := ⟨(x.num.natAbs : Int), x.den⟩
    let e := fracLog2 n
    if e < -1022 then
      let m := fracRoundNE (fracScale n 1074)
      if 2 ^ 52 ≤ m then s + 2 ^ 52 else s + m
    else if 1023 < e then s + 2047 * 2 ^ 52
    else
      let m := fracRoundNE (fracScale n (52 - e))
      if m = 2 ^ 53 then
        if 1023 < e + 1 then s + 2047 * 2 ^ 52
        else s + (e + 1 + 1023).toNat * 2 ^ 52
      else s + (e + 1023).toNat * 2 ^ 52 + (m - 2 ^ 52)

/-- Round a natural number to 53 significant bits, ties to even: the magnitude
part of the conversion from i64 to f64 (which is exact below 2 to the 53). -/
def roundNat53 (n : Nat) : Nat :=
  if n < 2 ^ 53 then n
  else
    let L := natLog2 n
    let k := L - 52
    let q := n / 2 ^ k
    let r := n % 2 ^ k
    let q' := if 2 ^ (k - 1) < r ∨ (r = 2 ^ (k - 1) ∧ q % 2 = 1) then q + 1 else q
    q' * 2 ^ k

/-- Value-level model of the Rust cast from i64 to f64: the class holding the
exactly rounded value.  An i64 magnitude never reaches the infinite range, so
the result is always finite. -/
def i64ToF64 (i : Int) : F64Class :=
  .fin ⟨if i < 0 then -(roundNat53 i.natAbs : Int) else (roundNat53 i.natAbs : Int), 1⟩

/-- Bit-level model of the Rust cast from i64 to f64, used where the cast
feeds f64 arithmetic. -/
def i64ToF64Bits (i : Int) : Nat := encodeFrac ⟨i, 1⟩

/-- IEEE 754 comparison of two decoded classes: any NaN side yields no
ordering (Rust partial_cmp returns None); both zeros are equal because they
decode to the same fraction value 0. -/
def f64ClassCmp : F64Class → F64Class → Option Ordering
  | .nan, _ => none
  | _, .nan => none
  | .inf, .inf => some .eq
  | .inf, _ => some .gt
  | _, .inf => some .lt
  | .negInf, .negInf => some .eq
  | .negInf, _ => some .lt
  | _, .negInf => some .gt
  | .fin p, .fin q => some (fracCmp p q)

/-- Whether a bit pattern decodes to NaN. -/
def f64IsNan (bits : Nat) : Bool :=
  match f64Decode bits with
  | .nan => true
  | _ => false

/-- Exclusive or of the sign bits of two patterns, the IEEE sign of a product
or quotient. -/
def xorSign (a b : Nat) : Nat := (signBit a + signBit b) % 2

/-- IEEE 754 binary64 division on bit patterns, the model of Rust f64 /.
Division by zero of a nonzero finite value is a signed infinity; zero by zero
and infinity by infinity are NaN; finite quotients are computed exactly then
rounded by encodeFrac. -/
def f64Div (a b : Nat) : Nat :=
  match f64Decode a, f64Decode b with
  | .nan, _ => nanBits
  | _, .nan => nanBits
  | .inf, .inf => nanBits
  | .inf, .negInf => nanBits
  | .negInf, .inf => nanBits
  | .negInf, .negInf => nanBits
  | .inf, .fin _ => if xorSign a b = 1 then negInfBits else infBits
  | .negInf, .fin _ => if xorSign a b = 1 then negInfBits else infBits
  | .fin _, .inf => xorSign a b * 2 ^ 63
  | .fin _, .negInf => xorSign a b * 2 ^ 63
  | .fin p, .fin q =>
    if q.num = 0 then
      (if p.num = 0 then nanBits else (if xorSign a b = 1 then negInfBits else infBits))
    else if p.num = 0 then xorSign a b * 2 ^ 63
    else encodeFrac (fracDiv p q)

mutual

/-- Shallow embedding of the OwnedValue enum of src/core/types.rs.  Text and
Blob carry their byte sequences (the Rc indirection is ownership only); Agg
carries its aggregate context (the Box indirection is layout only); Record
carries the value list of the wrapped OwnedRecord. -/
inductive OwnedValue where
  | Null : OwnedValue
  | Integer (i : Int) : OwnedValue
  | Float (bits : Nat) : OwnedValue
  | Text (bytes : List Nat) : OwnedValue
  | Blob (bytes : List Nat) : OwnedValue
  | Agg (ctx : AggContext) : OwnedValue
  | Record (values : List OwnedValue) : OwnedValue
deriving Repr

/-- Shallow embedding of the AggContext enum of src/core/types.rs. -/
inductive AggContext where
  | Avg (acc count : OwnedValue) : AggContext
  | Sum (acc : OwnedValue) : AggContext
  | Count (count : OwnedValue) : AggContext
  | Max (v : Option OwnedValue) : AggContext
  | Min (v : Option OwnedValue) : AggContext
  | GroupConcat (acc : OwnedValue) : AggContext
deriving Repr

end

/-- Shallow embedding of AggContext::final_value.  The source returns a
reference, with the shared NULL constant for an unset Max or Min; the model
returns the value itself. -/
def AggContext.final_value : AggContext → OwnedValue
  | .Avg acc _ => acc
  | .Sum acc => acc
  | .Count c => c
  | .Max (some v) => v
  | .Max none => .Null
  | .Min (some v) => v
  | .Min none => .Null
  | .GroupConcat s => s

mutual

/-- Shallow embedding of the PartialOrd implementation for OwnedValue
(partial_cmp, src/core/types.rs lines 84 to 120), with the match arms in
source order.  Result convention: none is the todo abort of the final catch
all arm; some none is Rust returning Option::None; some (some o) is Some(o). -/
def OwnedValue.pcmp : OwnedValue → OwnedValue → Option (Option Ordering)
  | .Integer a, .Integer b => some (some (ordOfInt a b))
  | .Integer a, .Float f => some (f64ClassCmp (i64ToF64 a) (f64Decode f))
  | .Float f, .Integer a => some (f64ClassCmp (f64Decode f) (i64ToF64 a))
  | .Float x, .Float y => some (f64ClassCmp (f64Decode x) (f64Decode y))
  | .Integer _, .Text _ => some (some .lt)
  | .Integer _, .Blob _ => some (some .lt)
  | .Float _, .Text _ => some (some .lt)
  | .Float _, .Blob _ => some (some .lt)
  | .Text _, .Integer _ => some (some .gt)
  | .Text _, .Float _ => some (some .gt)
  | .Blob _, .Integer _ => some (some .gt)
  | .Blob _, .Float _ => some (some .gt)
  | .Text a, .Text b => some (some (compareBytes a b))
  | .Text _, .Blob _ => some (some .lt)
  | .Blob _, .Text _ => some (some .gt)
  | .Blob a, .Blob b => some (some (compareBytes a b))
  | .Null, .Null => some (some .eq)
  | .Null, _ => some (some .lt)
  | _, .Null => some (some .gt)
  | .Agg a, .Agg b => AggContext.pcmp a b
  | .Agg a, other => OwnedValue.pcmp (AggContext.final_value a) other
  | other, .Agg b => OwnedValue.pcmp other (AggContext.final_value b)
  | _, _ => none
termination_by a b => sizeOf a + sizeOf b
decreasing_by
  all_goals simp_wf
  all_goals try omega
  all_goals rename AggContext => c
  all_goals cases c <;> first
    | (simp [AggContext.final_value]; omega)
    | (rename Option OwnedValue => o; cases o <;> simp [AggContext.final_value] <;> omega)

/-- Shallow embedding of the PartialOrd implementation for AggContext
(src/core/types.rs lines 122 to 133): same-kind pairs compare their stored
values (Max and Min through the derived Option ordering, where None is below
Some); cross-kind pairs are Rust None.  The Option (Option Ordering)
convention is the one of OwnedValue.pcmp. -/
def AggContext.pcmp : AggContext → AggContext → Option (Option Ordering)
  | .Avg a _, .Avg b _ => OwnedValue.pcmp a b
  | .Sum a, .Sum b => OwnedValue.pcmp a b
  | .Count a, .Count b => OwnedValue.pcmp a b
  | .GroupConcat a, .GroupConcat b => OwnedValue.pcmp a b
  | .Max none, .Max none => some (some .eq)
  | .Max none, .Max (some _) => some (some .lt)
  | .Max (some _), .Max none => some (some .gt)
  | .Max (some a), .Max (some b) => OwnedValue.pcmp a b
  | .Min none, .Min none => some (some .eq)
  | .Min none, .Min (some _) => some (some .lt)
  | .Min (some _), .Min none => some (some .gt)
  | .Min (some a), .Min (some b) => OwnedValue.pcmp a b
  | _, _ => some none
termination_by a b => sizeOf a + sizeOf b
decreasing_by all_goals simp_wf <;> omega

end

/-- Shallow embedding of the Ord implementation for OwnedValue
(src/core/types.rs lines 137 to 141): unwrap of the partial_cmp result.
none models the abort, from the unwrap of a Rust None or from a propagated
partial_cmp abort. -/
def OwnedValue.cmp (a b : OwnedValue) : Option Ordering :=
  match OwnedValue.pcmp a b with
  | some (some o) => some o
  | _ => none

/-- Shallow embedding of the Div implementation for OwnedValue
(src/core/types.rs lines 226 to 246), match arms in source order.  Rust i64
division aborts on a zero divisor and on i64::MIN divided by -1 in every
build profile (none models the abort); otherwise it truncates toward zero
(Int.tdiv).  Every non-numeric combination falls to Float(0.0). -/
def OwnedValue.div : OwnedValue → OwnedValue → Option OwnedValue
  | .Integer a, .Integer b =>
    if b = 0 ∨ (a = -(2 ^ 63) ∧ b = -1) then none else some (.Integer (Int.tdiv a b))
  | .Integer a, .Float f => some (.Float (f64Div (i64ToF64Bits a) f))
  | .Float f, .Integer a => some (.Float (f64Div f (i64ToF64Bits a)))
  | .Float x, .Float y => some (.Float (f64Div x y))
  | _, _ => some (.Float 0)

/-- Shallow embedding of the borrowed Value enum of src/core/types.rs; the
borrowed text and blob references are their byte sequences. -/
inductive Value where
  | Null : Value
  | Integer (i : Int) : Value
  | Float (bits : Nat) : Value
  | Text (bytes : List Nat) : Value
  | Blob (bytes : List Nat) : Value
deriving Repr, DecidableEq

/-- The error kind used by the FromValue conversions (LimboError variant
ConversionError, carrying a descriptive message). -/
inductive LimboError where
  | ConversionError (msg : String) : LimboError
deriving Repr, DecidableEq

/-- Shallow embedding of the FromValue implementation for i64
(src/core/types.rs lines 293 to 300). -/
def i64FromValue : Value → Except LimboError Int
  | .Integer i => .ok i
  | _ => .error (.ConversionError "Expected integer value")

/-- Shallow embedding of the FromValue implementation for String
(src/core/types.rs lines 302 to 309); the owned copy is the same byte list. -/
def stringFromValue : Value → Except LimboError (List Nat)
  | .Text s => .ok s
  | _ => .error (.ConversionError "Expected text value")

/-- Shallow embedding of the FromValue implementation for a borrowed str
(src/core/types.rs lines 311 to 318). -/
def strFromValue : Value → Except LimboError (List Nat)
  | .Text s => .ok s
  | _ => .error (.ConversionError "Expected text value")

/-- Modelled from the spec: the varint codec write_varint of
src/storage/sqlite3_ondisk.rs is not under src/.  Section 6 of the spec
defines it as writing 1 to 9 bytes, most significant 7-bit groups first, the
high bit set on every byte but the last; values of 63 bits or fewer take the
minimal number of 7-bit groups, and larger 64-bit values take the 9-byte
form whose final byte holds the low 8 bits.  varintHighGroups produces the
high-bit-marked leading groups of v, least significant last. -/
def varintHighGroups : Nat → Nat → List Nat
  | 0, _ => []
  | fuel + 1, v => if v = 0 then [] else varintHighGroups fuel (v / 128) ++ [v % 128 + 128]

/-- Modelled from the spec: the byte sequence written by write_varint
(see varintHighGroups). -/
def write_varint (v : Nat) : List Nat :=
  if v < 2 ^ 63 then varintHighGroups 9 (v / 128) ++ [v % 128]
  else varintHighGroups 8 (v / 256) ++ [v % 256]

/-- The serial type code computed for one value in OwnedRecord::serialize
(src/core/types.rs lines 345 to 354); none models the unreachable abort for
Agg and Record values. -/
def serialType : OwnedValue → Option Nat
  | .Null => some 0
  | .Integer _ => some 6
  | .Float _ => some 7
  | .Text t => some (t.length * 2 + 13)
  | .Blob b => some (b.length * 2 + 12)
  | .Agg _ => none
  | .Record _ => none

/-- The payload bytes appended for one value in OwnedRecord::serialize
(src/core/types.rs lines 364 to 376): integers as the 8 big-endian bytes of
their two complement pattern, floats as the 8 big-endian bytes of their bit
pattern, text and blobs as their raw bytes, Null nothing; none models the
unreachable abort for Agg and Record values. -/
def payloadBytes : OwnedValue → Option (List Nat)
  | .Null => some []
  | .Integer i => some (beBytes8 (i.emod (2 ^ 64)).toNat)
  | .Float f => some (beBytes8 f)
  | .Text t => some t
  | .Blob b => some b
  | .Agg _ => none
  | .Record _ => none

/-- One iteration of the serial-type loop of OwnedRecord::serialize
(src/core/types.rs lines 356 to 359): grow the buffer by 9 zero bytes,
write the varint into the fresh window, truncate the unused tail. -/
def appendSerialVarint (buf : List Nat) (st : Nat) : List Nat :=
  let buf1 := buf ++ List.replicate 9 0
  let len := buf1.length
  let w := write_varint st
  let buf2 := buf1.take (len - 9) ++ w ++ buf1.drop (len - 9 + w.length)
  buf2.take (len - 9 + w.length)

/-- The serial-type loop of OwnedRecord::serialize over the record values;
none models the unreachable abort on a non-serializable value. -/
def writeSerialTypes : List OwnedValue → List Nat → Option (List Nat)
  | [], buf => some buf
  | v :: rest, buf =>
    match serialType v with
    | none => none
    | some st => writeSerialTypes rest (appendSerialVarint buf st)

/-- The payload loop of OwnedRecord::serialize over the record values;
none models the unreachable abort on a non-serializable value. -/
def writePayloads : List OwnedValue → List Nat → Option (List Nat)
  | [], buf => some buf
  | v :: rest, buf =>
    match payloadBytes v with
    | none => none
    | some p => writePayloads rest (buf ++ p)

/-- The header_bytes_buf construction of OwnedRecord::serialize
(src/core/types.rs lines 389 to 391): 9 zero bytes, the header size varint
written at the front, truncated to the bytes written. -/
def headerByteBuf (hs : Nat) : List Nat :=
  let b := List.replicate 9 0
  let w := write_varint hs
  (w ++ b.drop w.length).take w.length

/-- Vec::splice insertion of new bytes at position i (with an empty removed
range), as used at line 392 of src/core/types.rs. -/
def spliceAt (buf : List Nat) (i : Nat) (ins : List Nat) : List Nat :=
  buf.take i ++ ins ++ buf.drop i

/-- Shallow embedding of the OwnedRecord struct of src/core/types.rs. -/
structure OwnedRecord where
  values : List OwnedValue
deriving Repr

/-- Shallow embedding of OwnedRecord::serialize (src/core/types.rs lines 341
to 393): append a varint serial type per value, record the header byte count,
append the payloads, then splice the header-size varint (byte count plus one)
at the original buffer end.  none models an abort: a non-serializable value,
the todo on a header over 126 bytes, or the assert on a header size over 126
after the increment. -/
def OwnedRecord.serialize (r : OwnedRecord) (buf : List Nat) : Option (List Nat) :=
  let initial_i := buf.length
  match writeSerialTypes r.values buf with
  | none => none
  | some buf1 =>
    let header_size := buf1.length - initial_i
    match writePayloads r.values buf1 with
    | none => none
    | some buf2 =>
      if header_size ≤ 126 then
        if header_size + 1 ≤ 126 then
          some (spliceAt buf2 initial_i (headerByteBuf (header_size + 1)))
        else none
      else none

/-- Modelled from the spec: reading one varint (the read side of the varint
codec of src/storage/sqlite3_ondisk.rs, not under src/), returning the value
and the number of bytes consumed; up to 8 leading bytes carry 7 bits each
with the high bit set, a 9th byte carries 8 bits. -/
def readVarintAux : Nat → Nat → Nat → List Nat → Option (Nat × Nat)
  | _, _, _, [] => none
  | 0, acc, cnt, b :: _ => some (acc * 256 + b, cnt + 1)
  | fuel + 1, acc, cnt, b :: rest =>
    if b < 128 then some (acc * 128 + b, cnt + 1)
    else readVarintAux fuel (acc * 128 + (b - 128)) (cnt + 1) rest

/-- Modelled from the spec: entry point of the varint read (see
readVarintAux). -/
def read_varint (bytes : List Nat) : Option (Nat × Nat) := readVarintAux 8 0 0 bytes

/-- Modelled from the spec: the payload length denoted by a serial type code
of section 4.4 — 0 for Null, 8 for the integer and float codes 6 and 7,
(code - 13) / 2 for odd text codes, (code - 12) / 2 for even blob codes at
least 12; other codes are outside the produced format. -/
def serialPayloadLen (st : Nat) : Option Nat :=
  if st = 0 then some 0
  else if st = 6 then some 8
  else if st = 7 then some 8
  else if 12 ≤ st ∧ st % 2 = 0 then some ((st - 12) / 2)
  else if 13 ≤ st ∧ st % 2 = 1 then some ((st - 13) / 2)
  else none

/-- Modelled from the spec: read the varint serial types filling the header
region of a record (section 4.4); fuel is the byte count of the region. -/
def readSerialTypesAux : Nat → List Nat → Option (List Nat)
  | _, [] => some []
  | 0, _ :: _ => none
  | fuel + 1, b :: rest =>
    match read_varint (b :: rest) with
    | none => none
    | some (st, n) =>
      match readSerialTypesAux fuel ((b :: rest).drop n) with
      | none => none
      | some more => some (st :: more)

/-- Modelled from the spec: split the payload region into one byte sequence
per serial type, requiring the region to be consumed exactly. -/
def splitPayload : List Nat → List Nat → Option (List (List Nat))
  | [], p => if p.isEmpty then some [] else none
  | st :: rest, payload =>
    match serialPayloadLen st with
    | none => none
    | some len =>
      if payload.length < len then none
      else
        match splitPayload rest (payload.drop len) with
        | none => none
        | some cols => some (payload.take len :: cols)

/-- Modelled from the spec: the record parser (the read side of the record
codec, not under src/): read the header-size varint, read the serial types
from the rest of the header region, split the payload region by the serial
types; returns the serial types and the per-column payload bytes. -/
def parseRecord (bytes : List Nat) : Option (List Nat × List (List Nat)) :=
  match read_varint bytes with
  | none => none
  | some (hs, n) =>
    if bytes.length < hs ∨ hs < n then none
    else
      match readSerialTypesAux ((bytes.take hs).drop n).length ((bytes.take hs).drop n) with
      | none => none
      | some sts =>
        match splitPayload sts (bytes.drop hs) with
        | none => none
        | some cols => some (sts, cols)

/-- Whether a value is one of the five scalar kinds (not Agg, not Record);
used to state the comparison claims. -/
def scalarB : OwnedValue → Bool
  | .Null => true
  | .Integer _ => true
  | .Float _ => true
  | .Text _ => true
  | .Blob _ => true
  | _ => false

/-- The type-class rank of the spec ordering: Null below numeric below Text
below Blob (Agg and Record are outside the ranking and get a sentinel). -/
def typeClass : OwnedValue → Nat
  | .Null => 0
  | .Integer _ => 1
  | .Float _ => 1
  | .Text _ => 2
  | .Blob _ => 3
  | .Agg _ => 4
  | .Record _ => 4

/-- Whether a value has no NaN float payload at the top level. -/
def notNanB : OwnedValue → Bool
  | .Float f => !f64IsNan f
  | _ => true

/-- Whether a value is serializable (Agg and Record are not). -/
def serializableB : OwnedValue → Bool
  | .Agg _ => false
  | .Record _ => false
  | _ => true

/-- The serial type table exactly as the spec words it: 0 for Null, 6 for a
64-bit integer, 7 for a 64-bit float, 2 len + 13 for text of len bytes,
2 len + 12 for a blob of len bytes (0 as a sentinel outside the table). -/
def specSerialType : OwnedValue → Nat
  | .Null => 0
  | .Integer _ => 6
  | .Float _ => 7
  | .Text t => 2 * t.length + 13
  | .Blob b => 2 * b.length + 12
  | _ => 0

/-- The concatenated serial-type varints of a value list, in column order. -/
def hdrBytes : List OwnedValue → List Nat
  | [] => []
  | v :: rest => write_varint ((serialType v).getD 0) ++ hdrBytes rest

/-- The concatenated payload bytes of a value list, in column order. -/
def payBytes : List OwnedValue → List Nat
  | [] => []
  | v :: rest => (payloadBytes v).getD [] ++ payBytes rest

/-- The record row of the round-trip test of the spec: Null, Integer 42,
Float 1.5 (whose pattern is encodeFrac of 3 over 2), Text hi, Blob 1 2 3. -/
def c1Row : OwnedRecord :=
  ⟨[.Null, .Integer 42, .Float (encodeFrac ⟨3, 2⟩), .Text [104, 105], .Blob [1, 2, 3]]⟩

/-- The payload table exactly as the spec words it: integers and floats as
fixed 8-byte big-endian, text and blobs as their raw bytes, Null nothing
(empty for the non-serializable kinds, which never reach the payload loop). -/
def specPayload : OwnedValue → List Nat
  | .Null => []
  | .Integer i => beBytes8 (i.emod (2 ^ 64)).toNat
  | .Float f => beBytes8 f
  | .Text t => t
  | .Blob b => b
  | _ => []

/-- The serialized bytes of c1Row: header-size varint 6, serial types
0 6 7 17 18, then the payloads of the four non-Null columns. -/
def c1Bytes : List Nat :=
  [6, 0, 6, 7, 17, 18,
   0, 0, 0, 0, 0, 0, 0, 42,
   63, 248, 0, 0, 0, 0, 0, 0,
   104, 105,
   1, 2, 3]

/-- A record of 125 Null columns: its serial-type varints take 125 bytes, so
the computed header size 126 is still supported. -/
def nullRow125 : OwnedRecord := ⟨List.replicate 125 .Null⟩

/-- A record of 126 Null columns: its computed header size 127 exceeds the
supported bound and serialization must fail fast. -/
def nullRow126 : OwnedRecord := ⟨List.replicate 126 .Null⟩

/-- Whether the operand pair takes one of the four numeric arms of the Div
implementation; every other pair reaches the Float(0.0) catch-all. -/
def divNumeric : OwnedValue → OwnedValue → Bool
  | .Integer _, .Integer _ => true
  | .Integer _, .Float _ => true
  | .Float _, .Integer _ => true
  | .Float _, .Float _ => true
  | _, _ => false

theorem ordOfInt_swap (a b : Int) : ordOfInt b a = (ordOfInt a b).swap := by
  unfold ordOfInt
  split_ifs <;> first | rfl | omega

theorem compareBytes_swap : ∀ s t : List Nat, compareBytes t s = (compareBytes s t).swap
  | [], [] => rfl
  | [], _ :: _ => rfl
  | _ :: _, [] => rfl
  | a :: as, b :: bs => by
    simp only [compareBytes, ordOfInt_swap a b]
    cases ordOfInt a b <;> simp [Ordering.swap, compareBytes_swap as bs]

theorem fracCmp_swap (p q : Frac) : fracCmp q p = (fracCmp p q).swap := by
  unfold fracCmp
  exact ordOfInt_swap _ _

theorem f64ClassCmp_total_swap (c d : F64Class) (hc : c ≠ .nan) (hd : d ≠ .nan) :
    ∃ o, f64ClassCmp c d = some o ∧ f64ClassCmp d c = some o.swap := by
  cases c <;> cases d <;>
    first
      | exact absurd rfl hc
      | exact absurd rfl hd
      | exact ⟨_, rfl, rfl⟩
      | exact ⟨_, rfl, by rw [← fracCmp_swap]; rfl⟩

theorem i64ToF64_ne_nan (i : Int) : i64ToF64 i ≠ .nan := fun h => F64Class.noConfusion h

theorem f64Decode_ne_nan (f : Nat) (h : f64IsNan f = false) : f64Decode f ≠ .nan := by
  intro hcontra
  simp [f64IsNan, hcontra] at h

theorem pcmp_scalar_swap :
    ∀ a b : OwnedValue, scalarB a = true → scalarB b = true →
      notNanB a = true → notNanB b = true →
      ∃ o, OwnedValue.pcmp a b = some (some o) ∧ OwnedValue.pcmp b a = some (some o.swap) := by
  intro a b ha hb hna hnb
  cases a with
  | Null =>
    cases b with
    | Null => exact ⟨.eq, by simp [OwnedValue.pcmp], by simp [OwnedValue.pcmp, Ordering.swap]⟩
    | Integer j => exact ⟨.lt, by simp [OwnedValue.pcmp], by simp [OwnedValue.pcmp, Ordering.swap]⟩
    | Float g => exact ⟨.lt, by simp [OwnedValue.pcmp], by simp [OwnedValue.pcmp, Ordering.swap]⟩
    | Text t => exact ⟨.lt, by simp [OwnedValue.pcmp], by simp [OwnedValue.pcmp, Ordering.swap]⟩
    | Blob u => exact ⟨.lt, by simp [OwnedValue.pcmp], by simp [OwnedValue.pcmp, Ordering.swap]⟩
    | Agg c => simp [scalarB] at hb
    | Record vs => simp [scalarB] at hb
  | Integer i =>
    cases b with
    | Null => exact ⟨.gt, by simp [OwnedValue.pcmp], by simp [OwnedValue.pcmp, Ordering.swap]⟩
    | Integer j =>
      exact ⟨ordOfInt i j, by simp [OwnedValue.pcmp],
        by simp only [OwnedValue.pcmp]; rw [ordOfInt_swap]⟩
    | Float g =>
      have hg : f64IsNan g = false := by simpa [notNanB] using hnb
      obtain ⟨o, h1, h2⟩ := f64ClassCmp_total_swap (i64ToF64 i) (f64Decode g)
        (i64ToF64_ne_nan i) (f64Decode_ne_nan g hg)
      exact ⟨o, by simp [OwnedValue.pcmp, h1], by simp [OwnedValue.pcmp, h2]⟩
    | Text t => exact ⟨.lt, by simp [OwnedValue.pcmp], by simp [OwnedValue.pcmp, Ordering.swap]⟩
    | Blob u => exact ⟨.lt, by simp [OwnedValue.pcmp], by simp [OwnedValue.pcmp, Ordering.swap]⟩
    | Agg c => simp [scalarB] at hb
    | Record vs => simp [scalarB] at hb
  | Float f =>
    have hf : f64IsNan f = false := by simpa [notNanB] using hna
    cases b with
    | Null => exact ⟨.gt, by simp [OwnedValue.pcmp], by simp [OwnedValue.pcmp, Ordering.swap]⟩
    | Integer j =>
      obtain ⟨o, h1, h2⟩ := f64ClassCmp_total_swap (f64Decode f) (i64ToF64 j)
        (f64Decode_ne_nan f hf) (i64ToF64_ne_nan j)
      exact ⟨o, by simp [OwnedValue.pcmp, h1], by simp [OwnedValue.pcmp, h2]⟩
    | Float g =>
      have hg : f64IsNan g = false := by simpa [notNanB] using hnb
      obtain ⟨o, h1, h2⟩ := f64ClassCmp_total_swap (f64Decode f) (f64Decode g)
        (f64Decode_ne_nan f hf) (f64Decode_ne_nan g hg)
      exact ⟨o, by simp [OwnedValue.pcmp, h1], by simp [OwnedValue.pcmp, h2]⟩
    | Text t => exact ⟨.lt, by simp [OwnedValue.pcmp], by simp [OwnedValue.pcmp, Ordering.swap]⟩
    | Blob u => exact ⟨.lt, by simp [OwnedValue.pcmp], by simp [OwnedValue.pcmp, Ordering.swap]⟩
    | Agg c => simp [scalarB] at hb
    | Record vs => simp [scalarB] at hb
  | Text s =>
    cases b with
    | Null => exact ⟨.gt, by simp [OwnedValue.pcmp], by simp [OwnedValue.pcmp, Ordering.swap]⟩
    | Integer j => exact ⟨.gt, by simp [OwnedValue.pcmp], by simp [OwnedValue.pcmp, Ordering.swap]⟩
    | Float g => exact ⟨.gt, by simp [OwnedValue.pcmp], by simp [OwnedValue.pcmp, Ordering.swap]⟩
    | Text t =>
      exact ⟨compareBytes s t, by simp [OwnedValue.pcmp],
        by simp only [OwnedValue.pcmp]; rw [compareBytes_swap]⟩
    | Blob u => exact ⟨.lt, by simp [OwnedValue.pcmp], by simp [OwnedValue.pcmp, Ordering.swap]⟩
    | Agg c => simp [scalarB] at hb
    | Record vs => simp [scalarB] at hb
  | Blob s =>
    cases b with
    | Null => exact ⟨.gt, by simp [OwnedValue.pcmp], by simp [OwnedValue.pcmp, Ordering.swap]⟩
    | Integer j => exact ⟨.gt, by simp [OwnedValue.pcmp], by simp [OwnedValue.pcmp, Ordering.swap]⟩
    | Float g => exact ⟨.gt, by simp [OwnedValue.pcmp], by simp [OwnedValue.pcmp, Ordering.swap]⟩
    | Text t => exact ⟨.gt, by simp [OwnedValue.pcmp], by simp [OwnedValue.pcmp, Ordering.swap]⟩
    | Blob u =>
      exact ⟨compareBytes s u, by simp [OwnedValue.pcmp],
        by simp only [OwnedValue.pcmp]; rw [compareBytes_swap]⟩
    | Agg c => simp [scalarB] at hb
    | Record vs => simp [scalarB] at hb
  | Agg c => simp [scalarB] at ha
  | Record vs => simp [scalarB] at ha

/-- C2: OwnedValue comparison follows the fixed type-class ranking
Null below numeric (Integer and Float) below Text below Blob for every pair
of values of distinct classes regardless of contents; a mixed Integer and
Float pair is compared numerically after promoting the integer to f64, so
Integer 3 equals Float 3.0 and Integer 2 is below Float 2.5; two Text values
and two Blob values are compared byte-wise lexicographically. -/
theorem C2_type_class_ranking :
    (∀ a b : OwnedValue, scalarB a = true → scalarB b = true →
       typeClass a < typeClass b →
       OwnedValue.pcmp a b = some (some .lt) ∧ OwnedValue.pcmp b a = some (some .gt))
    ∧ (∀ (i : Int) (f : Nat),
        OwnedValue.pcmp (.Integer i) (.Float f) = some (f64ClassCmp (i64ToF64 i) (f64Decode f))
        ∧ OwnedValue.pcmp (.Float f) (.Integer i) = some (f64ClassCmp (f64Decode f) (i64ToF64 i)))
    ∧ OwnedValue.pcmp (.Integer 3) (.Float (encodeFrac ⟨3, 1⟩)) = some (some .eq)
    ∧ OwnedValue.pcmp (.Integer 2) (.Float (encodeFrac ⟨5, 2⟩)) = some (some .lt)
    ∧ (∀ s t : List Nat, OwnedValue.pcmp (.Text s) (.Text t) = some (some (compareBytes s t)))
    ∧ (∀ s t : List Nat, OwnedValue.pcmp (.Blob s) (.Blob t) = some (some (compareBytes s t))) := by
  refine ⟨?_, ?_, ?_, ?_, ?_, ?_⟩
  · intro a b ha hb hlt
    cases a <;> cases b <;>
      first
        | (exfalso; simp [scalarB] at ha; done)
        | (exfalso; simp [scalarB] at hb; done)
        | (exfalso; simp [typeClass] at hlt; done)
        | (constructor <;> (simp [OwnedValue.pcmp]; done))
  · intro i f
    exact ⟨by simp [OwnedValue.pcmp], by simp [OwnedValue.pcmp]⟩
  · simp only [OwnedValue.pcmp]
    decide
  · simp only [OwnedValue.pcmp]
    decide
  · intro s t
    simp [OwnedValue.pcmp]
  · intro s t
    simp [OwnedValue.pcmp]

/-- Witness for C2 at a concrete distinct-class pair. -/
theorem C2_witness :
    OwnedValue.pcmp .Null (.Integer 0) = some (some .lt)
    ∧ OwnedValue.pcmp (.Integer 0) .Null = some (some .gt) :=
  C2_type_class_ranking.1 .Null (.Integer 0) rfl rfl (by decide)

/-- Counterexample for C3: the claim promises some ordering for every pair of
Float values, but at the NaN pattern partial_cmp is Rust None (the model
value some none) and cmp aborts on the unwrap (the model value none). -/
theorem C3_counterexample_nan :
    OwnedValue.pcmp (.Float nanBits) (.Float nanBits) = some none
    ∧ OwnedValue.cmp (.Float nanBits) (.Float nanBits) = none := by
  have h1 : OwnedValue.pcmp (.Float nanBits) (.Float nanBits) = some none := by
    simp only [OwnedValue.pcmp]
    decide
  exact ⟨h1, by simp [OwnedValue.cmp, h1]⟩

/-- C3 amended: for every pair of non-Agg, non-Record operands whose Float
payloads are not NaN, partial_cmp returns some ordering, cmp is defined, and
cmp of the swapped pair is the inverse ordering; the chain Null below
Integer 0 below empty Text below empty Blob holds. -/
theorem C3_total_order_amended :
    (∀ a b : OwnedValue, scalarB a = true → scalarB b = true →
       notNanB a = true → notNanB b = true →
       ∃ o, OwnedValue.pcmp a b = some (some o)
         ∧ OwnedValue.cmp a b = some o ∧ OwnedValue.cmp b a = some o.swap)
    ∧ OwnedValue.cmp .Null (.Integer 0) = some .lt
    ∧ OwnedValue.cmp (.Integer 0) (.Text []) = some .lt
    ∧ OwnedValue.cmp (.Text []) (.Blob []) = some .lt := by
  refine ⟨?_, ?_, ?_, ?_⟩
  · intro a b ha hb hna hnb
    obtain ⟨o, h1, h2⟩ := pcmp_scalar_swap a b ha hb hna hnb
    exact ⟨o, h1, by simp [OwnedValue.cmp, h1], by simp [OwnedValue.cmp, h2]⟩
  · simp [OwnedValue.cmp, OwnedValue.pcmp]
  · simp [OwnedValue.cmp, OwnedValue.pcmp]
  · simp [OwnedValue.cmp, OwnedValue.pcmp]

/-- Witness for C3 at a concrete scalar non-NaN pair. -/
theorem C3_witness :
    ∃ o, OwnedValue.pcmp (.Integer 0) (.Float (encodeFrac ⟨5, 2⟩)) = some (some o)
      ∧ OwnedValue.cmp (.Integer 0) (.Float (encodeFrac ⟨5, 2⟩)) = some o
      ∧ OwnedValue.cmp (.Float (encodeFrac ⟨5, 2⟩)) (.Integer 0) = some o.swap :=
  C3_total_order_amended.1 (.Integer 0) (.Float (encodeFrac ⟨5, 2⟩)) rfl (by decide) rfl (by decide)

/-- Counterexample for C7: comparing an Agg against Null does not unwrap to
final_value, because the Null match arms come first; Agg of an unset Max
compares Greater than Null although its final_value is Null, which compares
Equal to Null (and symmetrically on the other side). -/
theorem C7_counterexample_agg_null :
    OwnedValue.pcmp (.Agg (.Max none)) .Null = some (some .gt)
    ∧ OwnedValue.pcmp ((AggContext.Max none).final_value) .Null = some (some .eq)
    ∧ OwnedValue.pcmp .Null (.Agg (.Max none)) = some (some .lt)
    ∧ OwnedValue.pcmp .Null ((AggContext.Max none).final_value) = some (some .eq) := by
  refine ⟨?_, ?_, ?_, ?_⟩ <;> simp [OwnedValue.pcmp, AggContext.final_value]

/-- C7 amended: for every Agg value and every non-Agg, non-Null operand v,
comparing the Agg with v equals comparing its final_value with v, on either
side; at v equal to Null the Null arms win instead. -/
theorem C7_agg_unwrap_amended :
    ∀ (c : AggContext) (v : OwnedValue), (∀ c', v ≠ .Agg c') → v ≠ .Null →
      OwnedValue.pcmp (.Agg c) v = OwnedValue.pcmp (AggContext.final_value c) v
      ∧ OwnedValue.pcmp v (.Agg c) = OwnedValue.pcmp v (AggContext.final_value c) := by
  intro c v hagg hnull
  cases v with
  | Null => exact absurd rfl hnull
  | Agg c' => exact absurd rfl (hagg c')
  | Integer i => exact ⟨by simp [OwnedValue.pcmp], by simp [OwnedValue.pcmp]⟩
  | Float f => exact ⟨by simp [OwnedValue.pcmp], by simp [OwnedValue.pcmp]⟩
  | Text t => exact ⟨by simp [OwnedValue.pcmp], by simp [OwnedValue.pcmp]⟩
  | Blob u => exact ⟨by simp [OwnedValue.pcmp], by simp [OwnedValue.pcmp]⟩
  | Record vs => exact ⟨by simp [OwnedValue.pcmp], by simp [OwnedValue.pcmp]⟩

/-- Witness for C7 at a concrete Agg and non-Null scalar. -/
theorem C7_witness :
    OwnedValue.pcmp (.Agg (.Sum (.Integer 1))) (.Integer 0)
      = OwnedValue.pcmp ((AggContext.Sum (.Integer 1)).final_value) (.Integer 0)
    ∧ OwnedValue.pcmp (.Integer 0) (.Agg (.Sum (.Integer 1)))
      = OwnedValue.pcmp (.Integer 0) ((AggContext.Sum (.Integer 1)).final_value) :=
  C7_agg_unwrap_amended (.Sum (.Integer 1)) (.Integer 0)
    (fun _ h => OwnedValue.noConfusion h) (fun h => OwnedValue.noConfusion h)

/-- C8: AggContext::final_value is a pure projection: Avg yields its running
sum (not the sum divided by the count), Sum its running sum, Count its count,
GroupConcat its accumulated text, and an unset Max or Min yields Null while a
set one yields its held value. -/
theorem C8_final_value_projection :
    (∀ acc cnt : OwnedValue, (AggContext.Avg acc cnt).final_value = acc)
    ∧ (∀ acc : OwnedValue, (AggContext.Sum acc).final_value = acc)
    ∧ (∀ cnt : OwnedValue, (AggContext.Count cnt).final_value = cnt)
    ∧ (∀ acc : OwnedValue, (AggContext.GroupConcat acc).final_value = acc)
    ∧ (AggContext.Max none).final_value = .Null
    ∧ (AggContext.Min none).final_value = .Null
    ∧ (∀ v : OwnedValue, (AggContext.Max (some v)).final_value = v)
    ∧ (∀ v : OwnedValue, (AggContext.Min (some v)).final_value = v) :=
  ⟨fun _ _ => rfl, fun _ => rfl, fun _ => rfl, fun _ => rfl, rfl, rfl, fun _ => rfl, fun _ => rfl⟩

/-- C9: typed extraction from a borrowed Value is total over the result type:
the i64 conversion succeeds exactly on Integer and otherwise yields the
conversion error with its descriptive message; the String and str
conversions succeed exactly on Text; no input aborts. -/
theorem C9_from_value_conversion :
    (∀ (v : Value) (i : Int), i64FromValue v = .ok i ↔ v = .Integer i)
    ∧ (∀ v : Value, (∀ i, v ≠ .Integer i) →
        i64FromValue v = .error (.ConversionError "Expected integer value"))
    ∧ (∀ (v : Value) (s : List Nat), stringFromValue v = .ok s ↔ v = .Text s)
    ∧ (∀ v : Value, (∀ s, v ≠ .Text s) →
        stringFromValue v = .error (.ConversionError "Expected text value"))
    ∧ (∀ (v : Value) (s : List Nat), strFromValue v = .ok s ↔ v = .Text s)
    ∧ (∀ v : Value, (∀ s, v ≠ .Text s) →
        strFromValue v = .error (.ConversionError "Expected text value")) := by
  refine ⟨?_, ?_, ?_, ?_, ?_, ?_⟩
  · intro v i
    cases v <;> simp [i64FromValue]
  · intro v hv
    cases v <;> first | exact absurd rfl (hv _) | simp [i64FromValue]
  · intro v s
    cases v <;> simp [stringFromValue]
  · intro v hv
    cases v <;> first | exact absurd rfl (hv _) | simp [stringFromValue]
  · intro v s
    cases v <;> simp [strFromValue]
  · intro v hv
    cases v <;> first | exact absurd rfl (hv _) | simp [strFromValue]

/-- Witness for C9 at concrete mismatching inputs. -/
theorem C9_witness :
    i64FromValue (.Float 0) = .error (.ConversionError "Expected integer value")
    ∧ stringFromValue (.Integer 7) = .error (.ConversionError "Expected text value")
    ∧ strFromValue .Null = .error (.ConversionError "Expected text value") :=
  ⟨C9_from_value_conversion.2.1 (.Float 0) (fun _ h => Value.noConfusion h),
   C9_from_value_conversion.2.2.2.1 (.Integer 7) (fun _ h => Value.noConfusion h),
   C9_from_value_conversion.2.2.2.2.2 .Null (fun _ h => Value.noConfusion h)⟩

/-- Counterexample for C5: at dividend i64::MIN and divisor -1 the divisor is
nonzero, yet Rust i64 division aborts on the overflow instead of producing
the truncated quotient 2 to the 63 (which does not fit in i64). -/
theorem C5_counterexample_min_div :
    OwnedValue.div (.Integer (-(2 ^ 63))) (.Integer (-1)) = none
    ∧ OwnedValue.div (.Integer (-(2 ^ 63))) (.Integer (-1)) ≠ some (.Integer (2 ^ 63)) := by
  have h : OwnedValue.div (.Integer (-(2 ^ 63))) (.Integer (-1)) = none := by
    simp only [OwnedValue.div]
    rw [if_pos (by simp)]
  refine ⟨h, ?_⟩
  rw [h]
  simp

/-- C5 amended: division computes Integer over Integer as the quotient
truncated toward zero for every nonzero divisor except the overflowing pair
of i64::MIN and -1, which fails fast like division by zero; an Integer and
Float mix or a Float pair is the float quotient with integers promoted; any
combination outside the four numeric arms yields Float 0.0; integer division
by zero fails fast rather than returning a sentinel. -/
theorem C5_division_amended :
    (∀ a b : Int, b ≠ 0 → ¬(a = -(2 ^ 63) ∧ b = -1) →
       OwnedValue.div (.Integer a) (.Integer b) = some (.Integer (Int.tdiv a b)))
    ∧ OwnedValue.div (.Integer 7) (.Integer 2) = some (.Integer 3)
    ∧ (∀ (a : Int) (f : Nat),
        OwnedValue.div (.Integer a) (.Float f) = some (.Float (f64Div (i64ToF64Bits a) f))
        ∧ OwnedValue.div (.Float f) (.Integer a) = some (.Float (f64Div f (i64ToF64Bits a))))
    ∧ (∀ x y : Nat, OwnedValue.div (.Float x) (.Float y) = some (.Float (f64Div x y)))
    ∧ (∀ a b : OwnedValue, divNumeric a b = false → OwnedValue.div a b = some (.Float 0))
    ∧ (∀ a : Int, OwnedValue.div (.Integer a) (.Integer 0) = none)
    ∧ OwnedValue.div (.Integer (-(2 ^ 63))) (.Integer (-1)) = none := by
  refine ⟨?_, rfl, fun a f => ⟨rfl, rfl⟩, fun x y => rfl, ?_, ?_, ?_⟩
  · intro a b hb hmin
    simp only [OwnedValue.div]
    rw [if_neg (fun hor => hor.elim hb hmin)]
  · intro a b hnum
    cases a <;> cases b <;>
      first
        | (exfalso; simp [divNumeric] at hnum; done)
        | (simp [OwnedValue.div]; done)
  · intro a
    simp [OwnedValue.div]
  · simp only [OwnedValue.div]
    rw [if_pos (by simp)]

/-- Witness for C5 at a concrete quotient and a concrete fallback. -/
theorem C5_witness :
    OwnedValue.div (.Integer 9) (.Integer 4) = some (.Integer (Int.tdiv 9 4))
    ∧ OwnedValue.div (.Text []) (.Integer 5) = some (.Float 0) :=
  ⟨C5_division_amended.1 9 4 (by norm_num) (by norm_num),
   C5_division_amended.2.2.2.2.1 (.Text []) (.Integer 5) rfl⟩

theorem take_append_self (l1 l2 : List Nat) : (l1 ++ l2).take l1.length = l1 := by
  simp

theorem drop_append_self (l1 l2 : List Nat) : (l1 ++ l2).drop l1.length = l2 := by
  simp

theorem write_varint_small (v : Nat) (h : v < 128) : write_varint v = [v] := by
  unfold write_varint
  rw [if_pos (by omega), Nat.div_eq_of_lt h, Nat.mod_eq_of_lt h]
  simp [varintHighGroups]

theorem appendSerialVarint_eq (buf : List Nat) (st : Nat) :
    appendSerialVarint buf st = buf ++ write_varint st := by
  unfold appendSerialVarint
  simp only [List.length_append, List.length_replicate]
  have h1 : buf.length + 9 - 9 = buf.length := by omega
  rw [h1, take_append_self]
  have h3 : (buf ++ write_varint st).length = buf.length + (write_varint st).length := by simp
  rw [← h3]
  exact take_append_self (buf ++ write_varint st) _

theorem headerByteBuf_eq (hs : Nat) : headerByteBuf hs = write_varint hs := by
  unfold headerByteBuf
  exact take_append_self (write_varint hs) _

theorem writeSerialTypes_eq (vs : List OwnedValue) :
    ∀ buf : List Nat, (∀ v ∈ vs, serializableB v = true) →
      writeSerialTypes vs buf = some (buf ++ hdrBytes vs) := by
  induction vs with
  | nil => intro buf _; simp [writeSerialTypes, hdrBytes]
  | cons v rest ih =>
    intro buf h
    have hv : serializableB v = true := h v (List.mem_cons_self v rest)
    obtain ⟨st, hst⟩ : ∃ st, serialType v = some st := by
      cases v <;> simp_all [serializableB, serialType]
    simp only [writeSerialTypes, hst]
    rw [ih _ (fun u hu => h u (List.mem_cons_of_mem v hu)), appendSerialVarint_eq]
    simp [hdrBytes, hst, List.append_assoc]

theorem writePayloads_eq (vs : List OwnedValue) :
    ∀ buf : List Nat, (∀ v ∈ vs, serializableB v = true) →
      writePayloads vs buf = some (buf ++ payBytes vs) := by
  induction vs with
  | nil => intro buf _; simp [writePayloads, payBytes]
  | cons v rest ih =>
    intro buf h
    have hv : serializableB v = true := h v (List.mem_cons_self v rest)
    obtain ⟨p, hp⟩ : ∃ p, payloadBytes v = some p := by
      cases v <;> simp_all [serializableB, payloadBytes]
    simp only [writePayloads, hp]
    rw [ih _ (fun u hu => h u (List.mem_cons_of_mem v hu))]
    simp [payBytes, hp, List.append_assoc]

theorem serialize_eq (r : OwnedRecord) (buf : List Nat)
    (h : ∀ v ∈ r.values, serializableB v = true) :
    r.serialize buf =
      if (hdrBytes r.values).length + 1 ≤ 126 then
        some (buf ++ write_varint ((hdrBytes r.values).length + 1)
          ++ hdrBytes r.values ++ payBytes r.values)
      else none := by
  unfold OwnedRecord.serialize
  simp only [writeSerialTypes_eq r.values buf h,
    writePayloads_eq r.values (buf ++ hdrBytes r.values) h]
  have hl : (buf ++ hdrBytes r.values).length - buf.length = (hdrBytes r.values).length := by
    simp
  rw [hl, headerByteBuf_eq]
  have hsplice : spliceAt (buf ++ hdrBytes r.values ++ payBytes r.values) buf.length
      (write_varint ((hdrBytes r.values).length + 1))
      = buf ++ write_varint ((hdrBytes r.values).length + 1)
        ++ hdrBytes r.values ++ payBytes r.values := by
    unfold spliceAt
    rw [List.append_assoc buf (hdrBytes r.values) (payBytes r.values),
      take_append_self, drop_append_self]
    simp [List.append_assoc]
  rw [hsplice]
  split_ifs with h1 h2 h3 <;> first | rfl | omega

/-- C1: OwnedRecord::serialize on a record of Null, Integer, Float, Text and
Blob values produces header-size varint, then the serial-type varints in
column order, then the payload bytes in column order; the serial type codes
and payloads follow the spec table (0, 6, 7, 2 len + 13, 2 len + 12; fixed
8-byte big-endian numerics, raw text and blob bytes, nothing for Null); the
header size is the serial-type varint byte count plus one; and for the row
Null, Integer 42, Float 1.5, Text hi, Blob 1 2 3 the serial types are
0 6 7 17 18 and re-parsing the output reproduces the serial types and the
payload bytes. -/
theorem C1_serialize_layout_roundtrip :
    (∀ (r : OwnedRecord) (buf : List Nat),
       (∀ v ∈ r.values, serializableB v = true) →
       (hdrBytes r.values).length + 1 ≤ 126 →
       r.serialize buf = some (buf ++ write_varint ((hdrBytes r.values).length + 1)
         ++ hdrBytes r.values ++ payBytes r.values))
    ∧ (∀ v : OwnedValue, serializableB v = true → serialType v = some (specSerialType v))
    ∧ (∀ v : OwnedValue, serializableB v = true → payloadBytes v = some (specPayload v))
    ∧ c1Row.serialize [] = some c1Bytes
    ∧ parseRecord c1Bytes = some ([0, 6, 7, 17, 18],
        [[], [0, 0, 0, 0, 0, 0, 0, 42], [63, 248, 0, 0, 0, 0, 0, 0], [104, 105], [1, 2, 3]]) := by
  refine ⟨?_, ?_, ?_, by decide, by decide⟩
  · intro r buf hser hsize
    rw [serialize_eq r buf hser, if_pos hsize]
  · intro v hv
    cases v <;> simp_all [serializableB, serialType, specSerialType] <;> omega
  · intro v hv
    cases v <;> simp_all [serializableB, payloadBytes, specPayload]

/-- Witness for C1 at the concrete row of the spec. -/
theorem C1_witness :
    c1Row.serialize [] = some ([] ++ write_varint ((hdrBytes c1Row.values).length + 1)
      ++ hdrBytes c1Row.values ++ payBytes c1Row.values) :=
  C1_serialize_layout_roundtrip.1 c1Row [] (by decide) (by decide)

/-- C6: serialize supports exactly the records (of serializable values) whose
computed header size, the serial-type varint byte count plus one, is at most
126: every such record succeeds with a single-byte header-size prefix, and
every record whose computed header size exceeds 126 fails fast (the model
result none covers both the todo on larger headers and the assert that fires
at exactly 127). -/
theorem C6_header_size_boundary :
    ∀ (r : OwnedRecord) (buf : List Nat), (∀ v ∈ r.values, serializableB v = true) →
      ((hdrBytes r.values).length + 1 ≤ 126 →
         r.serialize buf = some (buf ++ write_varint ((hdrBytes r.values).length + 1)
           ++ hdrBytes r.values ++ payBytes r.values)
         ∧ write_varint ((hdrBytes r.values).length + 1) = [(hdrBytes r.values).length + 1])
      ∧ (126 < (hdrBytes r.values).length + 1 → r.serialize buf = none) := by
  intro r buf h
  constructor
  · intro hle
    exact ⟨by rw [serialize_eq r buf h, if_pos hle], write_varint_small _ (by omega)⟩
  · intro hgt
    rw [serialize_eq r buf h, if_neg (by omega)]

set_option maxRecDepth 8000 in
/-- Witness for C6 at the 125-Null and 126-Null boundary records. -/
theorem C6_witness :
    (nullRow125.serialize [] = some ([] ++ write_varint ((hdrBytes nullRow125.values).length + 1)
       ++ hdrBytes nullRow125.values ++ payBytes nullRow125.values)
     ∧ write_varint ((hdrBytes nullRow125.values).length + 1)
       = [(hdrBytes nullRow125.values).length + 1])
    ∧ nullRow126.serialize [] = none :=
  ⟨(C6_header_size_boundary nullRow125 [] (by decide)).1 (by decide),
   (C6_header_size_boundary nullRow126 [] (by decide)).2 (by decide)⟩

/-- C10: serialize only appends to the caller-supplied buffer: on every
successful call the previous buffer contents are an unchanged prefix of the
output, and the complete record encoding (header-size varint, serial-type
varints, payload) is exactly the appended suffix starting at the previous
length. -/
theorem C10_serialize_appends_only :
    ∀ (r : OwnedRecord) (buf out : List Nat), (∀ v ∈ r.values, serializableB v = true) →
      r.serialize buf = some out →
      out.take buf.length = buf
      ∧ out.drop buf.length = write_varint ((hdrBytes r.values).length + 1)
          ++ hdrBytes r.values ++ payBytes r.values := by
  intro r buf out h hout
  rw [serialize_eq r buf h] at hout
  by_cases hle : (hdrBytes r.values).length + 1 ≤ 126
  · rw [if_pos hle] at hout
    have hval : out = buf ++ (write_varint ((hdrBytes r.values).length + 1)
        ++ hdrBytes r.values ++ payBytes r.values) := by
      have := Option.some.inj hout
      rw [← this]
      simp [List.append_assoc]
    rw [hval, take_append_self, drop_append_self]
    exact ⟨rfl, rfl⟩
  · rw [if_neg hle] at hout
    exact absurd hout (by simp)

/-- Witness for C10 at the concrete row appended to a nonempty buffer. -/
theorem C10_witness :
    (7 :: 7 :: c1Bytes).take ([7, 7] : List Nat).length = [7, 7]
    ∧ (7 :: 7 :: c1Bytes).drop ([7, 7] : List Nat).length
      = write_varint ((hdrBytes c1Row.values).length + 1)
        ++ hdrBytes c1Row.values ++ payBytes c1Row.values :=
  C10_serialize_appends_only c1Row [7, 7] (7 :: 7 :: c1Bytes) (by decide) (by decide)
